import Mathlib

/-!
Verification of the `postgres_migrator` core (src/main.rs) against its
specification.  The Rust source is shallowly embedded: pure string
manipulation is translated to Lean functions on `String`/`List Char`,
the subprocess outcome handling of `compute_diff` is modelled over the
captured output record, and the stateful `command_migrate` engine is
modelled by explicit state passing over a record of the
`_schema_versions` table contents.  Character-level functions
(`\w`-classes, lowercasing) are modelled at ASCII fidelity, matching the
Rust behaviour on all inputs exercised by the tool (filenames and
descriptions).
-/

set_option maxHeartbeats 1000000

/-! ## Generic string helpers used to state "the diagnostic mentions X" -/

/-- Boolean test that `n` is an initial segment of `h`. -/
def leadsWith [DecidableEq α] : List α → List α → Bool
  | [], _ => true
  | _ :: _, [] => false
  | a :: as, b :: bs => a = b && leadsWith as bs

/-- Boolean test that `n` occurs contiguously somewhere inside `h`. -/
def occursIn [DecidableEq α] (n : List α) : List α → Bool
  | [] => leadsWith n []
  | c :: t => leadsWith n (c :: t) || occursIn n t

/-- String version of `occursIn`: the needle occurs inside the haystack. -/
def strOccursIn (n h : String) : Bool := occursIn n.data h.data

theorem leadsWith_self_append [DecidableEq α] (n b : List α) : leadsWith n (n ++ b) = true := by
  induction n with
  | nil => rfl
  | cons a as ih => simp [leadsWith, ih]

theorem occursIn_self_append [DecidableEq α] (n b : List α) : occursIn n (n ++ b) = true := by
  cases n with
  | nil => cases b with
    | nil => rfl
    | cons c t => rw [List.nil_append, occursIn]; rfl
  | cons x xs =>
    rw [List.cons_append, occursIn]
    have h := leadsWith_self_append (x :: xs) b
    rw [List.cons_append] at h
    rw [h, Bool.true_or]

theorem occursIn_mid [DecidableEq α] (a n b : List α) : occursIn n (a ++ n ++ b) = true := by
  induction a with
  | nil => simpa using occursIn_self_append n b
  | cons c t ih =>
    have harr : (c :: t) ++ n ++ b = c :: (t ++ n ++ b) := by simp
    rw [harr, occursIn, ih, Bool.or_true]

theorem leadsWith_sub_mem [DecidableEq α] :
    ∀ (n h : List α), leadsWith n h = true → ∀ c ∈ n, c ∈ h
  | [], _, _, c, hc => absurd hc (List.not_mem_nil c)
  | a :: _, [], hl, _, _ => by simp [leadsWith] at hl
  | a :: as, b :: bs, hl, c, hc => by
    simp only [leadsWith, Bool.and_eq_true, decide_eq_true_eq] at hl
    rcases List.mem_cons.mp hc with rfl | hc
    · rw [hl.1]; exact List.mem_cons_self _ _
    · exact List.mem_cons_of_mem _ (leadsWith_sub_mem as bs hl.2 c hc)

theorem occursIn_sub_mem [DecidableEq α] :
    ∀ (n h : List α), occursIn n h = true → ∀ c ∈ n, c ∈ h
  | n, [], hocc, c, hc => leadsWith_sub_mem n [] hocc c hc
  | n, b :: bs, hocc, c, hc => by
    rw [occursIn, Bool.or_eq_true] at hocc
    rcases hocc with hlead | htail
    · exact leadsWith_sub_mem n (b :: bs) hlead c hc
    · exact List.mem_cons_of_mem _ (occursIn_sub_mem n bs htail c hc)

theorem strOccursIn_mid (a n b : String) : strOccursIn n (a ++ n ++ b) = true := by
  simpa [strOccursIn, String.data_append] using occursIn_mid a.data n.data b.data

theorem strOccursIn_suffix (a n : String) : strOccursIn n (a ++ n) = true := by
  have := strOccursIn_mid a n ("")
  simpa using this

/-! ## Slugification (`make_slug`)

The source is

    fn make_slug(text: &str) -> String {
        let re = regex::Regex::new(r"\W+").unwrap();
        re.replace_all(text, "_").to_lowercase().into()
    }

`replace_all` with pattern `\W+` replaces each maximal run of non-word
characters by one underscore; the result is then lowercased.  The word
class `\w` and the lowercase map are modelled at ASCII fidelity
(Rust's defaults are Unicode-aware but agree with this on ASCII). -/

/-- Characters of the `\w` class: ASCII letters, digits and underscore. -/
def wordChar (c : Char) : Bool := c.isAlphanum || c = '_'

/-- Scanner for the replacement: the flag records whether the previous
character belonged to a (non-word) run whose underscore is already emitted. -/
def squashAux : Bool → List Char → List Char
  | _, [] => []
  | inRun, c :: rest =>
    if wordChar c then c :: squashAux false rest
    else if inRun then squashAux true rest
    else '_' :: squashAux true rest

/-- Replace every maximal run of non-word characters by one underscore
(the effect of `re.replace_all(text, "_")` for the regex `\W+`). -/
def squashNonWord (l : List Char) : List Char := squashAux false l

/-- Lean model of `make_slug` from the source: squash non-word runs to
underscores, then lowercase. -/
def make_slug (s : String) : String :=
  String.mk ((squashNonWord s.data).map Char.toLower)

theorem squashAux_id (l : List Char) (h : ∀ c ∈ l, wordChar c = true) :
    squashAux false l = l := by
  induction l with
  | nil => rfl
  | cons c rest ih =>
    rw [squashAux, if_pos (h c (List.mem_cons_self c rest))]
    rw [ih (fun d hd => h d (List.mem_cons_of_mem c hd))]

theorem squashNonWord_id (l : List Char) (h : ∀ c ∈ l, wordChar c = true) :
    squashNonWord l = l := squashAux_id l h

theorem map_toLower_id (l : List Char) (h : ∀ c ∈ l, Char.toLower c = c) :
    l.map Char.toLower = l := by
  induction l with
  | nil => rfl
  | cons c rest ih =>
    simp only [List.map_cons, h c (List.mem_cons_self c rest),
      ih (fun d hd => h d (List.mem_cons_of_mem c hd))]

theorem string_mk_data (s : String) : String.mk s.data = s := rfl

def helloWorldIn : String := "Hello, World!"
def helloWorldOut : String := "hello_world_"
def numsIn : String := "1, 2, yoyo, World"
def numsOut : String := "1_2_yoyo_world"

/-- Claim C8: `make_slug` replaces every maximal run of non-word characters
with a single underscore and lowercases the result; it is the identity on
strings made of lowercase word characters, sends "Hello, World!" to
"hello_world_" and "1, 2, yoyo, World" to "1_2_yoyo_world". -/
theorem c8_make_slug :
    (∀ s : String, (∀ c ∈ s.data, wordChar c = true ∧ Char.toLower c = c) →
      make_slug s = s) ∧
    make_slug helloWorldIn = helloWorldOut ∧
    make_slug numsIn = numsOut := by
  refine ⟨?_, by decide, by decide⟩
  intro s h
  unfold make_slug
  rw [squashNonWord_id s.data (fun c hc => (h c hc).1)]
  rw [map_toLower_id s.data (fun c hc => (h c hc).2)]

def allLowerIn : String := "abc_123"

/-- Witness: `c8_make_slug`'s identity half evaluated at "abc_123". -/
theorem c8_make_slug_witness : make_slug allLowerIn = allLowerIn :=
  c8_make_slug.1 allLowerIn (by decide)

/-! ## Migration-chain parsing (`MigrationFile::vec_from_paths`)

Filenames follow `<current>.<previous|null|onboard>.<slug>.sql`.  The
parser walks the (sorted) path list tracking `last_seen_current_version`
(initially the `null` sentinel), exactly as in the source.  Each
`anyhow!` site of the source becomes one constructor of `ParseErr`;
`renderErr` reproduces the formatted diagnostic text. -/

/-- Sentinel returned by `get_null_string` in the source. -/
def get_null_string : String := "null"

/-- The `onboard` sentinel literal. -/
def onboardStr : String := "onboard"

/-- Apostrophe, used by diagnostics. -/
def apos : String := String.singleton (Char.ofNat 39)

/-- Core of the splitter: first piece and the remaining pieces. -/
def splitOnSepCore (sep : Char) : List Char → List Char × List (List Char)
  | [] => ([], [])
  | c :: rest =>
    if c = sep then ([], (splitOnSepCore sep rest).1 :: (splitOnSepCore sep rest).2)
    else (c :: (splitOnSepCore sep rest).1, (splitOnSepCore sep rest).2)

/-- Split a character list at every occurrence of `sep`, keeping empty
pieces — the semantics of Rust's `str::split`.  The result is never
empty. -/
def splitOnSep (sep : Char) (l : List Char) : List (List Char) :=
  (splitOnSepCore sep l).1 :: (splitOnSepCore sep l).2

/-- Model of `Path::file_name` followed by `to_str` for unicode paths:
the final non-empty path component, unless it is `..`.  (`to_str` cannot
fail in this model since Lean strings are unicode.) -/
def pathFileName (p : String) : Option String :=
  match ((splitOnSep '/' p.data).filter (fun c => !(c = []) && !(c = ['.']))).getLast? with
  | none => none
  | some lastComp => if lastComp = ['.', '.'] then none else some (String.mk lastComp)

deriving instance DecidableEq for Except

/-- One constructor per `anyhow!` site in `MigrationFile::vec_from_paths`. -/
inductive ParseErr where
  | noFileName (p : String)
  | noVersionStrings (p : String)
  | noPreviousVersion (p : String)
  | misaligned (p expected got : String)
  | badLength (v : String)
  | nullOnboardNotFirst (p : String)
  | nonSequential (cur prev : String)
deriving DecidableEq

/-- Diagnostic text produced at each failure site of the source. -/
def renderErr : ParseErr → String
  | .noFileName p => "no file name for this path: " ++ p
  | .noVersionStrings p => "no version strings in this path: " ++ p
  | .noPreviousVersion p => "no previous version string in this path: " ++ p
  | .misaligned p expected got =>
      "misaligned versions in " ++ p ++ ": expected " ++ expected ++ ", got " ++ got
  | .badLength v => v ++ " is supposed to have exactly 14 characters"
  | .nullOnboardNotFirst p =>
      "null or onboard previous_version in migration that isn" ++ apos ++
        "t the first: " ++ p
  | .nonSequential cur prev =>
      "all migration versions have to be sequential, so " ++ cur ++
        " must be greater than " ++ prev

/-- The path, if any, interpolated into a `ParseErr`. -/
def pathOf : ParseErr → Option String
  | .noFileName p => some p
  | .noVersionStrings p => some p
  | .noPreviousVersion p => some p
  | .misaligned p _ _ => some p
  | .nullOnboardNotFirst p => some p
  | .badLength _ => none
  | .nonSequential _ _ => none

/-- The parsed `MigrationFile` record of the source.  `display_file_path`
is `to_string_lossy` of the path, which for unicode paths is the path
itself. -/
structure MigrationFile where
  file_path : String
  display_file_path : String
  current_version : String
  previous_version : String
  is_onboard : Bool
deriving DecidableEq

/-- Loop body of `vec_from_paths`, with the loop index and the tracked
`last_seen_current_version` explicit.  Each check appears in source
order: filename extraction, the two version components, the onboard
special case for `last_seen`, the misalignment check, the 14-character
check on `current`, then the null/onboard-position or the
ordering-plus-length checks on `previous`. -/
def vecFromPathsAux (idx : Nat) (lastSeen : String) :
    List String → Except ParseErr (List MigrationFile)
  | [] => .ok []
  | path :: rest =>
    match pathFileName path with
    | none => .error (.noFileName path)
    | some fname =>
      match splitOnSep '.' fname.data with
      | [] => .error (.noVersionStrings path)
      | [_] => .error (.noPreviousVersion path)
      | curL :: prevL :: _ =>
        if String.mk prevL ≠
            (if String.mk prevL = onboardStr ∧ lastSeen = get_null_string then onboardStr
             else lastSeen) then
          .error (.misaligned path
            (if String.mk prevL = onboardStr ∧ lastSeen = get_null_string then onboardStr
             else lastSeen) (String.mk prevL))
        else if (String.mk curL).length ≠ 14 then .error (.badLength (String.mk curL))
        else if String.mk prevL = get_null_string ∨ String.mk prevL = onboardStr then
          if idx ≠ 0 then .error (.nullOnboardNotFirst path)
          else
            match vecFromPathsAux (idx + 1) (String.mk curL) rest with
            | .error e => .error e
            | .ok tail =>
                .ok (⟨path, path, String.mk curL, get_null_string,
                      String.mk prevL == onboardStr⟩ :: tail)
        else
          if ¬ String.mk prevL < String.mk curL then
            .error (.nonSequential (String.mk curL) (String.mk prevL))
          else if (String.mk prevL).length ≠ 14 then .error (.badLength (String.mk prevL))
          else
            match vecFromPathsAux (idx + 1) (String.mk curL) rest with
            | .error e => .error e
            | .ok tail => .ok (⟨path, path, String.mk curL, String.mk prevL, false⟩ :: tail)

/-- Model of `MigrationFile::vec_from_paths`. -/
def vec_from_paths (file_paths : List String) : Except ParseErr (List MigrationFile) :=
  vecFromPathsAux 0 get_null_string file_paths

theorem vecAux_cons_ok {idx : Nat} {lastSeen path : String} {rest : List String}
    {files : List MigrationFile}
    (h : vecFromPathsAux idx lastSeen (path :: rest) = .ok files) :
    ∃ mf tail, files = mf :: tail ∧
      vecFromPathsAux (idx + 1) mf.current_version rest = .ok tail ∧
      mf.current_version.length = 14 ∧
      ((idx = 0 ∧ mf.previous_version = get_null_string ∧
          (lastSeen = get_null_string ∨ (mf.is_onboard = true ∧ lastSeen = onboardStr))) ∨
       (mf.previous_version = lastSeen ∧ mf.is_onboard = false ∧
          mf.previous_version < mf.current_version ∧ mf.previous_version.length = 14)) := by
  rw [vecFromPathsAux] at h
  split at h
  · exact Except.noConfusion h
  rename_i fname heqfn
  split at h
  · exact Except.noConfusion h
  · exact Except.noConfusion h
  rename_i curL prevL rest2 heqsp
  by_cases hsp : String.mk prevL = onboardStr ∧ lastSeen = get_null_string
  · rw [if_pos hsp] at h
    rw [if_neg (not_not_intro hsp.1)] at h
    by_cases hlen : (String.mk curL).length = 14
    · rw [if_neg (not_not_intro hlen)] at h
      rw [if_pos (Or.inr hsp.1)] at h
      by_cases hidx : idx = 0
      · rw [if_neg (not_not_intro hidx)] at h
        cases heqrec : vecFromPathsAux (idx + 1) (String.mk curL) rest with
        | error e => rw [heqrec] at h; exact Except.noConfusion h
        | ok tail =>
          rw [heqrec] at h
          injection h with h
          exact ⟨_, tail, h.symm, heqrec, hlen, Or.inl ⟨hidx, rfl, Or.inl hsp.2⟩⟩
      · rw [if_pos hidx] at h; exact Except.noConfusion h
    · rw [if_pos hlen] at h; exact Except.noConfusion h
  · rw [if_neg hsp] at h
    by_cases hmis : String.mk prevL = lastSeen
    · rw [if_neg (not_not_intro hmis)] at h
      by_cases hlen : (String.mk curL).length = 14
      · rw [if_neg (not_not_intro hlen)] at h
        by_cases hno : String.mk prevL = get_null_string ∨ String.mk prevL = onboardStr
        · rw [if_pos hno] at h
          by_cases hidx : idx = 0
          · rw [if_neg (not_not_intro hidx)] at h
            cases heqrec : vecFromPathsAux (idx + 1) (String.mk curL) rest with
            | error e => rw [heqrec] at h; exact Except.noConfusion h
            | ok tail =>
              rw [heqrec] at h
              injection h with h
              refine ⟨_, tail, h.symm, heqrec, hlen, Or.inl ⟨hidx, rfl, ?_⟩⟩
              rcases hno with hnull | honb
              · exact Or.inl (hmis.symm.trans hnull)
              · refine Or.inr ⟨beq_iff_eq.mpr honb, hmis.symm.trans honb⟩
          · rw [if_pos hidx] at h; exact Except.noConfusion h
        · rw [if_neg hno] at h
          by_cases hlt : String.mk prevL < String.mk curL
          · rw [if_neg (not_not_intro hlt)] at h
            by_cases hplen : (String.mk prevL).length = 14
            · rw [if_neg (not_not_intro hplen)] at h
              cases heqrec : vecFromPathsAux (idx + 1) (String.mk curL) rest with
              | error e => rw [heqrec] at h; exact Except.noConfusion h
              | ok tail =>
                rw [heqrec] at h
                injection h with h
                exact ⟨_, tail, h.symm, heqrec, hlen, Or.inr ⟨hmis, rfl, hlt, hplen⟩⟩
            · rw [if_pos hplen] at h; exact Except.noConfusion h
          · rw [if_pos hlt] at h; exact Except.noConfusion h
      · rw [if_pos hlen] at h; exact Except.noConfusion h
    · rw [if_pos hmis] at h; exact Except.noConfusion h

theorem vecAux_cons_err {idx : Nat} {lastSeen path : String} {rest : List String}
    {e : ParseErr}
    (h : vecFromPathsAux idx lastSeen (path :: rest) = .error e) :
    (∃ current : String, current.length = 14 ∧
        vecFromPathsAux (idx + 1) current rest = .error e) ∨
    ((pathOf e = none ∨ pathOf e = some path) ∧
      (∀ q, e = ParseErr.nullOnboardNotFirst q →
        idx ≠ 0 ∧ (lastSeen = get_null_string ∨ lastSeen = onboardStr))) := by
  rw [vecFromPathsAux] at h
  split at h
  · injection h with h
    exact Or.inr ⟨Or.inr (by rw [← h]; rfl), by intro q hq; rw [← h] at hq; cases hq⟩
  rename_i fname heqfn
  split at h
  · injection h with h
    exact Or.inr ⟨Or.inr (by rw [← h]; rfl), by intro q hq; rw [← h] at hq; cases hq⟩
  · injection h with h
    exact Or.inr ⟨Or.inr (by rw [← h]; rfl), by intro q hq; rw [← h] at hq; cases hq⟩
  rename_i curL prevL rest2 heqsp
  by_cases hsp : String.mk prevL = onboardStr ∧ lastSeen = get_null_string
  · rw [if_pos hsp] at h
    rw [if_neg (not_not_intro hsp.1)] at h
    by_cases hlen : (String.mk curL).length = 14
    · rw [if_neg (not_not_intro hlen)] at h
      rw [if_pos (Or.inr hsp.1)] at h
      by_cases hidx : idx = 0
      · rw [if_neg (not_not_intro hidx)] at h
        cases heqrec : vecFromPathsAux (idx + 1) (String.mk curL) rest with
        | error e2 =>
          rw [heqrec] at h
          injection h with h
          exact Or.inl ⟨String.mk curL, hlen, by rw [heqrec, h]⟩
        | ok tail => rw [heqrec] at h; exact Except.noConfusion h
      · rw [if_pos hidx] at h
        injection h with h
        refine Or.inr ⟨Or.inr (by rw [← h]; rfl), ?_⟩
        rw [← h]
        rintro q hq
        exact ⟨hidx, Or.inl hsp.2⟩
    · rw [if_pos hlen] at h
      injection h with h
      exact Or.inr ⟨Or.inl (by rw [← h]; rfl), by rw [← h]; rintro q hq; cases hq⟩
  · rw [if_neg hsp] at h
    by_cases hmis : String.mk prevL = lastSeen
    · rw [if_neg (not_not_intro hmis)] at h
      by_cases hlen : (String.mk curL).length = 14
      · rw [if_neg (not_not_intro hlen)] at h
        by_cases hno : String.mk prevL = get_null_string ∨ String.mk prevL = onboardStr
        · rw [if_pos hno] at h
          by_cases hidx : idx = 0
          · rw [if_neg (not_not_intro hidx)] at h
            cases heqrec : vecFromPathsAux (idx + 1) (String.mk curL) rest with
            | error e2 =>
              rw [heqrec] at h
              injection h with h
              exact Or.inl ⟨String.mk curL, hlen, by rw [heqrec, h]⟩
            | ok tail => rw [heqrec] at h; exact Except.noConfusion h
          · rw [if_pos hidx] at h
            injection h with h
            refine Or.inr ⟨Or.inr (by rw [← h]; rfl), ?_⟩
            rw [← h]
            rintro q hq
            refine ⟨hidx, ?_⟩
            rcases hno with hnull | honb
            · exact Or.inl (hmis.symm.trans hnull)
            · exact Or.inr (hmis.symm.trans honb)
        · rw [if_neg hno] at h
          by_cases hlt : String.mk prevL < String.mk curL
          · rw [if_neg (not_not_intro hlt)] at h
            by_cases hplen : (String.mk prevL).length = 14
            · rw [if_neg (not_not_intro hplen)] at h
              cases heqrec : vecFromPathsAux (idx + 1) (String.mk curL) rest with
              | error e2 =>
                rw [heqrec] at h
                injection h with h
                exact Or.inl ⟨String.mk curL, hlen, by rw [heqrec, h]⟩
              | ok tail => rw [heqrec] at h; exact Except.noConfusion h
            · rw [if_pos hplen] at h
              injection h with h
              exact Or.inr ⟨Or.inl (by rw [← h]; rfl), by rw [← h]; rintro q hq; cases hq⟩
          · rw [if_pos hlt] at h
            injection h with h
            exact Or.inr ⟨Or.inl (by rw [← h]; rfl), by rw [← h]; rintro q hq; cases hq⟩
      · rw [if_pos hlen] at h
        injection h with h
        exact Or.inr ⟨Or.inl (by rw [← h]; rfl), by rw [← h]; rintro q hq; cases hq⟩
    · rw [if_pos hmis] at h
      injection h with h
      exact Or.inr ⟨Or.inr (by rw [← h]; rfl), by rw [← h]; rintro q hq; cases hq⟩

theorem vecAux_ok_facts :
    ∀ (paths : List String) (idx : Nat) (lastSeen : String) (files : List MigrationFile),
    vecFromPathsAux idx lastSeen paths = .ok files →
    (∀ mf ∈ files, mf.current_version.length = 14) ∧
    (idx ≠ 0 → ∀ mf ∈ files, mf.is_onboard = false) ∧
    (∀ mf ∈ files.tail, mf.is_onboard = false) ∧
    (idx ≠ 0 → ∀ mf, files.head? = some mf →
       mf.previous_version = lastSeen ∧ mf.previous_version < mf.current_version ∧
       mf.is_onboard = false) ∧
    (∀ mf, files.head? = some mf →
       mf.previous_version = get_null_string ∨
         (mf.previous_version = lastSeen ∧ mf.previous_version < mf.current_version ∧
          mf.is_onboard = false)) ∧
    (∀ i (h1 : i + 1 < files.length),
       (files.get ⟨i + 1, h1⟩).previous_version =
         (files.get ⟨i, Nat.lt_of_succ_lt h1⟩).current_version ∧
       (files.get ⟨i + 1, h1⟩).previous_version < (files.get ⟨i + 1, h1⟩).current_version)
  | [], idx, lastSeen, files, h => by
    rw [vecFromPathsAux] at h
    injection h with h
    subst h
    refine ⟨by simp, by simp, by simp, ?_, ?_, ?_⟩
    · intro _ mf hmf; cases hmf
    · intro mf hmf; cases hmf
    · intro i h1; simp at h1
  | path :: rest, idx, lastSeen, files, h => by
    obtain ⟨mf, tail, hfiles, hrec, hlen, hbranch⟩ := vecAux_cons_ok h
    subst hfiles
    obtain ⟨ih1, ih2, ih3, ih4, ih5, ih6⟩ :=
      vecAux_ok_facts rest (idx + 1) mf.current_version tail hrec
    have hsucc : idx + 1 ≠ 0 := Nat.succ_ne_zero idx
    have htail_onb : ∀ x ∈ tail, x.is_onboard = false := ih2 hsucc
    have hmf_onb : idx ≠ 0 → mf.is_onboard = false := by
      intro hidx
      rcases hbranch with ⟨h0, _⟩ | ⟨_, honb, _⟩
      · exact absurd h0 hidx
      · exact honb
    refine ⟨?_, ?_, ?_, ?_, ?_, ?_⟩
    · intro x hx
      rcases List.mem_cons.mp hx with rfl | hx
      · exact hlen
      · exact ih1 x hx
    · intro hidx x hx
      rcases List.mem_cons.mp hx with rfl | hx
      · exact hmf_onb hidx
      · exact htail_onb x hx
    · exact htail_onb
    · intro hidx x hx
      rw [List.head?_cons, Option.some.injEq] at hx
      subst hx
      rcases hbranch with ⟨h0, _⟩ | ⟨hprev, honb, hlt, _⟩
      · exact absurd h0 hidx
      · exact ⟨hprev, hlt, honb⟩
    · intro x hx
      rw [List.head?_cons, Option.some.injEq] at hx
      subst hx
      rcases hbranch with ⟨_, hnull, _⟩ | ⟨hprev, honb, hlt, _⟩
      · exact Or.inl hnull
      · exact Or.inr ⟨hprev, hlt, honb⟩
    · intro i h1
      cases i with
      | zero =>
        cases tail with
        | nil => simp at h1
        | cons b t =>
          have hb := ih4 hsucc b (by rfl)
          exact ⟨hb.1, hb.2.1⟩
      | succ j =>
        have h2 : j + 1 < tail.length := by
          simpa [List.length_cons, Nat.succ_lt_succ_iff] using h1
        have := ih6 j h2
        simpa [List.get_cons_succ] using this

theorem vecAux_no_nullOnboard :
    ∀ (paths : List String) (idx : Nat) (lastSeen : String),
    (idx ≠ 0 → lastSeen.length = 14) →
    ∀ q, vecFromPathsAux idx lastSeen paths ≠ .error (.nullOnboardNotFirst q)
  | [], idx, lastSeen, _, q, h => by
    rw [vecFromPathsAux] at h
    exact Except.noConfusion h
  | path :: rest, idx, lastSeen, h14, q, h => by
    rcases vecAux_cons_err h with ⟨current, hcur, hrec⟩ | ⟨_, hno⟩
    · exact vecAux_no_nullOnboard rest (idx + 1) current (fun _ => hcur) q hrec
    · obtain ⟨hidx, hls⟩ := hno q rfl
      have := h14 hidx
      rcases hls with rfl | rfl
      · exact absurd this (by decide)
      · exact absurd this (by decide)

theorem vecAux_err_path :
    ∀ (paths : List String) (idx : Nat) (lastSeen : String) (e : ParseErr),
    vecFromPathsAux idx lastSeen paths = .error e →
    ∀ q, pathOf e = some q → q ∈ paths
  | [], idx, lastSeen, e, h, q, hq => by
    rw [vecFromPathsAux] at h
    exact Except.noConfusion h
  | path :: rest, idx, lastSeen, e, h, q, hq => by
    rcases vecAux_cons_err h with ⟨current, _, hrec⟩ | ⟨hp, _⟩
    · exact List.mem_cons_of_mem _ (vecAux_err_path rest (idx + 1) current e hrec q hq)
    · rcases hp with hnone | hsome
      · rw [hnone] at hq; cases hq
      · rw [hsome, Option.some.injEq] at hq
        subst hq
        exact List.mem_cons_self _ _

theorem occursIn_of_append_right [DecidableEq α] (a : List α) {n b : List α}
    (h : occursIn n b = true) : occursIn n (a ++ b) = true := by
  induction a with
  | nil => simpa using h
  | cons c t ih =>
    rw [List.cons_append, occursIn, ih, Bool.or_true]

theorem occursIn_self [DecidableEq α] (n : List α) : occursIn n n = true := by
  simpa using occursIn_mid [] n []

theorem renderErr_names_path (e : ParseErr) (q : String) (hq : pathOf e = some q) :
    strOccursIn q (renderErr e) = true := by
  cases e with
  | noFileName p =>
    rw [pathOf, Option.some.injEq] at hq
    subst hq
    exact strOccursIn_suffix _ _
  | noVersionStrings p =>
    rw [pathOf, Option.some.injEq] at hq
    subst hq
    exact strOccursIn_suffix _ _
  | noPreviousVersion p =>
    rw [pathOf, Option.some.injEq] at hq
    subst hq
    exact strOccursIn_suffix _ _
  | misaligned p x y =>
    rw [pathOf, Option.some.injEq] at hq
    subst hq
    rw [renderErr, strOccursIn, String.data_append, String.data_append, String.data_append,
      String.data_append, String.data_append]
    simp only [List.append_assoc]
    exact occursIn_of_append_right _ (occursIn_self_append _ _)
  | nullOnboardNotFirst p =>
    rw [pathOf, Option.some.injEq] at hq
    subst hq
    exact strOccursIn_suffix _ _
  | badLength v => rw [pathOf] at hq; cases hq
  | nonSequential c pv => rw [pathOf] at hq; cases hq

/-- Claim C1 (corrected): for every accepted list of paths the returned chain
satisfies invariants I1–I4 (14-character current versions, null-sentinel
previous at index 0, linkage `files[i].previous_version =
files[i-1].current_version`, strict lexicographic ascent, onboard only at
index 0); for every rejected list, the diagnostic either names an offending
path, or is the 14-character-length or sequential-ordering diagnostic, which
names only the offending version strings. -/
theorem c1_chain_invariants (paths : List String) :
    (∀ files, vec_from_paths paths = .ok files →
      (∀ mf ∈ files, mf.current_version.length = 14) ∧
      (∀ mf, files.head? = some mf →
        mf.previous_version = get_null_string ∨ mf.is_onboard = true) ∧
      (∀ i (h1 : i + 1 < files.length),
        (files.get ⟨i + 1, h1⟩).previous_version =
          (files.get ⟨i, Nat.lt_of_succ_lt h1⟩).current_version) ∧
      (∀ i (h1 : i + 1 < files.length),
        (files.get ⟨i + 1, h1⟩).previous_version <
          (files.get ⟨i + 1, h1⟩).current_version) ∧
      (∀ i (h1 : i < files.length), (files.get ⟨i, h1⟩).is_onboard = true → i = 0)) ∧
    (∀ e, vec_from_paths paths = .error e →
      (∃ p, p ∈ paths ∧ strOccursIn p (renderErr e) = true) ∨
      (∃ v, e = ParseErr.badLength v) ∨
      (∃ c pv, e = ParseErr.nonSequential c pv)) := by
  constructor
  · intro files h
    obtain ⟨h1, _, h3, _, h5, h6⟩ := vecAux_ok_facts paths 0 get_null_string files h
    refine ⟨h1, ?_, fun i hi => (h6 i hi).1, fun i hi => (h6 i hi).2, ?_⟩
    · intro mf hmf
      rcases h5 mf hmf with hnull | ⟨hprev, _, _⟩
      · exact Or.inl hnull
      · exact Or.inl (hprev.trans rfl)
    · intro i h1 honb
      cases i with
      | zero => rfl
      | succ j =>
        exfalso
        have hmem : files.get ⟨j + 1, h1⟩ ∈ files.tail := by
          cases files with
          | nil => simp at h1
          | cons a t =>
            rw [List.get_cons_succ]
            exact List.get_mem t _ _
        rw [h3 _ hmem] at honb
        cases honb
  · intro e h
    cases hp : pathOf e with
    | some q =>
      exact Or.inl ⟨q, vecAux_err_path paths 0 get_null_string e h q hp,
        renderErr_names_path e q hp⟩
    | none =>
      cases e with
      | badLength v => exact Or.inr (Or.inl ⟨v, rfl⟩)
      | nonSequential c pv => exact Or.inr (Or.inr ⟨c, pv, rfl⟩)
      | noFileName p => cases hp
      | noVersionStrings p => cases hp
      | noPreviousVersion p => cases hp
      | misaligned p x y => cases hp
      | nullOnboardNotFirst p => cases hp

def c1cexPath : String := "d/x.null.sql"
def c1cexPaths : List String := [c1cexPath]
def xLit : String := "x"

/-- Counterexample to C1 as stated: the list `["d/x.null.sql"]` is rejected
because the version `x` is not 14 characters long, and that diagnostic does
not name the offending path. -/
theorem c1_diagnostic_cex :
    vec_from_paths c1cexPaths = .error (ParseErr.badLength xLit) ∧
    strOccursIn c1cexPath (renderErr (ParseErr.badLength xLit)) = false := by
  refine ⟨by decide, by decide⟩

def c1okFile : MigrationFile :=
  ⟨"ok/20200101000000.null.sql", "ok/20200101000000.null.sql", "20200101000000", "null", false⟩
def c1okFiles : List MigrationFile := [c1okFile]
def c1okPaths : List String := ["ok/20200101000000.null.sql"]

/-- Witness: `c1_chain_invariants` applied to a concrete accepted list. -/
theorem c1_chain_invariants_witness : c1okFile.current_version.length = 14 :=
  ((c1_chain_invariants c1okPaths).1 c1okFiles (by decide)).1 c1okFile
    (List.mem_cons_self _ _)

/-- Classifier for the `null or onboard previous_version in migration that
is not the first` diagnostic. -/
def isNullOnboardErr : Except ParseErr (List MigrationFile) → Bool
  | .error (.nullOnboardNotFirst _) => true
  | _ => false

/-- Claim C9: the diagnostic `null or onboard previous_version in migration
that is not the first` is unreachable: for every input list of paths the
version-misalignment check fires first, so `vec_from_paths` never returns
that error. -/
theorem c9_unreachable_diagnostic (paths : List String) :
    isNullOnboardErr (vec_from_paths paths) = false := by
  cases h : vec_from_paths paths with
  | ok files => rfl
  | error e =>
    cases e with
    | nullOnboardNotFirst q =>
      exact absurd h
        (vecAux_no_nullOnboard paths 0 get_null_string (fun h0 => absurd rfl h0) q)
    | noFileName p => rfl
    | noVersionStrings p => rfl
    | noPreviousVersion p => rfl
    | misaligned p x y => rfl
    | badLength v => rfl
    | nonSequential c pv => rfl

def c9wPaths : List String := ["x/20200101000000.null.sql", "x/20200101000001.null.sql"]

/-- Witness: `c9_unreachable_diagnostic` at a concrete rejected list. -/
theorem c9_unreachable_diagnostic_witness :
    isNullOnboardErr (vec_from_paths c9wPaths) = false :=
  c9_unreachable_diagnostic c9wPaths

theorem splitOnSep_ne_nil (sep : Char) (l : List Char) : splitOnSep sep l ≠ [] := by
  rw [splitOnSep]
  exact List.cons_ne_nil _ _

theorem splitOnSepCore_no_sep (sep : Char) :
    ∀ l, (∀ c ∈ l, ¬ c = sep) → splitOnSepCore sep l = (l, [])
  | [], _ => rfl
  | c :: rest, h => by
    rw [splitOnSepCore, if_neg (h c (List.mem_cons_self c rest))]
    rw [splitOnSepCore_no_sep sep rest (fun d hd => h d (List.mem_cons_of_mem c hd))]

theorem splitOnSep_no_sep (sep : Char) (l : List Char) (h : ∀ c ∈ l, ¬ c = sep) :
    splitOnSep sep l = [l] := by
  rw [splitOnSep, splitOnSepCore_no_sep sep l h]

theorem splitOnSepCore_append_sep (sep : Char) :
    ∀ a b, (∀ c ∈ a, ¬ c = sep) →
    splitOnSepCore sep (a ++ sep :: b) =
      (a, (splitOnSepCore sep b).1 :: (splitOnSepCore sep b).2)
  | [], b, _ => by
    rw [List.nil_append, splitOnSepCore, if_pos rfl]
  | c :: a, b, h => by
    rw [List.cons_append, splitOnSepCore, if_neg (h c (List.mem_cons_self c a))]
    rw [splitOnSepCore_append_sep sep a b (fun d hd => h d (List.mem_cons_of_mem c hd))]

theorem splitOnSep_append_sep (sep : Char) (a b : List Char)
    (h : ∀ c ∈ a, ¬ c = sep) :
    splitOnSep sep (a ++ sep :: b) = a :: splitOnSep sep b := by
  rw [splitOnSep, splitOnSepCore_append_sep sep a b h, splitOnSep]

/-- Wellformed version token: 14 characters, all digits (the spec's
zero-padded numeric timestamp). -/
def isVersionToken (s : String) : Bool := (s.length = 14) && s.data.all Char.isDigit

theorem version_token_facts {s : String} (h : isVersionToken s = true) :
    s.length = 14 ∧ ∀ c ∈ s.data, c.isDigit = true := by
  rw [isVersionToken, Bool.and_eq_true, decide_eq_true_eq, List.all_eq_true] at h
  exact ⟨h.1, fun c hc => h.2 c hc⟩

theorem digit_ne_slash {c : Char} (h : c.isDigit = true) : ¬ c = '/' := by
  rintro rfl; exact absurd h (by decide)

theorem digit_ne_dot {c : Char} (h : c.isDigit = true) : ¬ c = '.' := by
  rintro rfl; exact absurd h (by decide)

theorem digit_ne_f {c : Char} (h : c.isDigit = true) : ¬ c = 'f' := by
  rintro rfl; exact absurd h (by decide)

def nullSqlSuffix : String := ".null.sql"
def nullSqlTail : String := "null.sql"
def sqlLit : String := "sql"

theorem pathFileName_simple (s : String) (hslash : ∀ c ∈ s.data, ¬ c = '/')
    (h0 : ¬ s.data = []) (h1 : ¬ s.data = ['.']) (h2 : ¬ s.data = ['.', '.']) :
    pathFileName s = some s := by
  rw [pathFileName, splitOnSep_no_sep '/' s.data hslash]
  have hfil : ([s.data].filter (fun c => !(c = ([] : List Char)) && !(c = ['.']))) =
      [s.data] := by
    simp [h0, h1]
  rw [hfil]
  simp only [List.getLast?_singleton]
  rw [if_neg h2, string_mk_data]

theorem pathFileName_token_suffix (V : String) (hd : ∀ c ∈ V.data, c.isDigit = true) :
    pathFileName (V ++ nullSqlSuffix) = some (V ++ nullSqlSuffix) := by
  have hsfx : ∀ c ∈ nullSqlSuffix.data, ¬ c = '/' := by decide
  have hlen9 : nullSqlSuffix.data.length = 9 := by decide
  apply pathFileName_simple
  · intro c hc
    rw [String.data_append] at hc
    rcases List.mem_append.mp hc with h | h
    · exact digit_ne_slash (hd c h)
    · exact hsfx c h
  · intro hnil
    have := congrArg List.length hnil
    rw [String.data_append, List.length_append, hlen9] at this
    simp at this
  · intro hone
    have := congrArg List.length hone
    rw [String.data_append, List.length_append, hlen9] at this
    simp at this
  · intro htwo
    have := congrArg List.length htwo
    rw [String.data_append, List.length_append, hlen9] at this
    simp at this

theorem split_token_suffix (V : String) (hd : ∀ c ∈ V.data, c.isDigit = true) :
    splitOnSep '.' (V ++ nullSqlSuffix).data =
      V.data :: get_null_string.data :: [sqlLit.data] := by
  have hnodot : ∀ c ∈ V.data, ¬ c = '.' := fun c hc => digit_ne_dot (hd c hc)
  rw [String.data_append,
    show nullSqlSuffix.data = '.' :: nullSqlTail.data from rfl,
    splitOnSep_append_sep '.' V.data nullSqlTail.data hnodot,
    show splitOnSep '.' nullSqlTail.data = [get_null_string.data, sqlLit.data] from by decide]

theorem c4_eval (V W : String) (hV : isVersionToken V = true) (hW : isVersionToken W = true) :
    vec_from_paths [V ++ nullSqlSuffix, W ++ nullSqlSuffix] =
      .error (ParseErr.misaligned (W ++ nullSqlSuffix) V get_null_string) := by
  obtain ⟨hVlen, hVdig⟩ := version_token_facts hV
  obtain ⟨hWlen, hWdig⟩ := version_token_facts hW
  have hgnV : get_null_string ≠ V := by
    intro h
    rw [← h] at hVlen
    exact absurd hVlen (by decide)
  have frame2 : vecFromPathsAux (0 + 1) V [W ++ nullSqlSuffix] =
      .error (ParseErr.misaligned (W ++ nullSqlSuffix) V get_null_string) := by
    rw [vecFromPathsAux]
    simp only [pathFileName_token_suffix W hWdig, split_token_suffix W hWdig,
      string_mk_data]
    rw [if_neg (show ¬ (get_null_string = onboardStr ∧ V = get_null_string) from
      fun h => absurd h.1 (by decide))]
    rw [if_pos hgnV]
  rw [vec_from_paths, vecFromPathsAux]
  simp only [pathFileName_token_suffix V hVdig, split_token_suffix V hVdig,
    string_mk_data]
  rw [if_neg (show ¬ (get_null_string = onboardStr ∧ True) from
    fun h => absurd h.1 (by decide))]
  rw [if_neg (not_not_intro rfl)]
  rw [if_neg (not_not_intro hVlen)]
  rw [if_pos (Or.inl True.intro : True ∨ get_null_string = onboardStr)]
  rw [if_neg (not_not_intro (rfl : (0 : Nat) = 0))]
  rw [frame2]

def notTheFirstLit : String := "not the first"

/-- Claim C4 (corrected): for valid 14-character version tokens V < W, the
input `{V.null.sql, W.null.sql}` is rejected, but with the misaligned-versions
diagnostic `misaligned versions in W.null.sql: expected V, got null`; this
mentions "null" yet does not mention "not the first". -/
theorem c4_sentinel_misuse (V W : String) (hV : isVersionToken V = true)
    (hW : isVersionToken W = true) (_hsort : V < W) :
    vec_from_paths [V ++ nullSqlSuffix, W ++ nullSqlSuffix] =
      .error (ParseErr.misaligned (W ++ nullSqlSuffix) V get_null_string) ∧
    strOccursIn get_null_string
      (renderErr (ParseErr.misaligned (W ++ nullSqlSuffix) V get_null_string)) = true ∧
    strOccursIn notTheFirstLit
      (renderErr (ParseErr.misaligned (W ++ nullSqlSuffix) V get_null_string)) = false := by
  obtain ⟨hVlen, hVdig⟩ := version_token_facts hV
  obtain ⟨hWlen, hWdig⟩ := version_token_facts hW
  refine ⟨c4_eval V W hV hW, ?_, ?_⟩
  · rw [renderErr]
    exact strOccursIn_suffix _ _
  · cases hb : strOccursIn notTheFirstLit
      (renderErr (ParseErr.misaligned (W ++ nullSqlSuffix) V get_null_string)) with
    | false => rfl
    | true =>
      exfalso
      rw [strOccursIn] at hb
      have hf := occursIn_sub_mem _ _ hb 'f' (by decide)
      rw [renderErr] at hf
      simp only [String.data_append, List.mem_append] at hf
      rcases hf with ((((h | h) | h) | h) | h) | h
      · exact absurd h (by decide)
      · rcases List.mem_append.mp (by simpa [String.data_append] using h) with h2 | h2
        · exact absurd rfl (digit_ne_f (hWdig 'f' h2))
        · exact absurd h2 (by decide)
      · exact absurd h (by decide)
      · exact absurd rfl (digit_ne_f (hVdig 'f' h))
      · exact absurd h (by decide)
      · exact absurd h (by decide)

def c4V : String := "20200101000000"
def c4W : String := "20200101000001"

/-- Witness: `c4_sentinel_misuse` at concrete tokens. -/
theorem c4_sentinel_misuse_witness :
    vec_from_paths [c4V ++ nullSqlSuffix, c4W ++ nullSqlSuffix] =
      .error (ParseErr.misaligned (c4W ++ nullSqlSuffix) c4V get_null_string) :=
  (c4_sentinel_misuse c4V c4W (by decide) (by decide)
    (String.lt_iff_toList_lt.mpr (by decide))).1

/-- Counterexample to C4 as stated: at concrete valid tokens the rejection
diagnostic does not mention "not the first". -/
theorem c4_diagnostic_cex :
    vec_from_paths [c4V ++ nullSqlSuffix, c4W ++ nullSqlSuffix] =
      .error (ParseErr.misaligned (c4W ++ nullSqlSuffix) c4V get_null_string) ∧
    strOccursIn notTheFirstLit
      (renderErr (ParseErr.misaligned (c4W ++ nullSqlSuffix) c4V get_null_string)) = false := by
  refine ⟨by decide, by decide⟩

/-! ## Structural differ outcome handling (`compute_diff`)

The source spawns `migra` and post-processes its captured output:

    if output.stderr.len() != 0 {
        return Err(anyhow!("migra failed: {}\n\n{}", output.status,
            String::from_utf8_lossy(&output.stderr)));
    }
    Ok(String::from_utf8_lossy(&output.stdout).trim().to_string())

The subprocess itself is outside the model: `compute_diff` is modelled on
the captured output record, whose `status` field carries the rendered
`ExitStatus` (only its display is used by the source).
`String::from_utf8_lossy` is modelled by a WHATWG/Rust-style UTF-8
decoder replacing each maximal invalid subpart with U+FFFD, and `trim`
by dropping Rust `char::is_whitespace` characters from both ends. -/

/-- Replacement character U+FFFD. -/
def replChar : Char := Char.ofNat 0xFFFD

/-- Continuation byte test: `0x80–0xBF`. -/
def contOk (b : Nat) : Bool := 0x80 ≤ b && b ≤ 0xBF

/-- Allowed first continuation byte after the lead byte `b` of a 3- or
4-byte sequence (tightened ranges excluding surrogates and overlong or
out-of-range encodings); `false` for invalid leads `0xF5` and above. -/
def cont1Ok (b c : Nat) : Bool :=
  if b = 0xE0 then 0xA0 ≤ c && c ≤ 0xBF
  else if b = 0xED then 0x80 ≤ c && c ≤ 0x9F
  else if b = 0xF0 then 0x90 ≤ c && c ≤ 0xBF
  else if b = 0xF4 then 0x80 ≤ c && c ≤ 0x8F
  else if 0xF5 ≤ b then false
  else contOk c

/-- Fuel-indexed decoder core; the fuel only bounds the recursion depth
(one unit per decoded character) and never runs out when it starts at the
byte count. -/
def utf8DecodeGo : Nat → List Nat → List Char
  | 0, _ => []
  | _, [] => []
  | fuel + 1, b :: rest =>
    if b ≤ 0x7F then Char.ofNat b :: utf8DecodeGo fuel rest
    else if b ≤ 0xC1 then replChar :: utf8DecodeGo fuel rest
    else
      match rest with
      | [] => [replChar]
      | c1 :: rest1 =>
        if b ≤ 0xDF then
          if contOk c1 then
            Char.ofNat ((b - 0xC0) * 64 + (c1 - 0x80)) :: utf8DecodeGo fuel rest1
          else replChar :: utf8DecodeGo fuel rest
        else if ¬ cont1Ok b c1 then replChar :: utf8DecodeGo fuel rest
        else
          match rest1 with
          | [] => [replChar]
          | c2 :: rest2 =>
            if ¬ contOk c2 then replChar :: utf8DecodeGo fuel rest1
            else if b ≤ 0xEF then
              Char.ofNat ((b - 0xE0) * 4096 + (c1 - 0x80) * 64 + (c2 - 0x80)) ::
                utf8DecodeGo fuel rest2
            else
              match rest2 with
              | [] => [replChar]
              | c3 :: rest3 =>
                if ¬ contOk c3 then replChar :: utf8DecodeGo fuel rest2
                else
                  Char.ofNat ((b - 0xF0) * 262144 + (c1 - 0x80) * 4096 +
                      (c2 - 0x80) * 64 + (c3 - 0x80)) :: utf8DecodeGo fuel rest3

/-- UTF-8 decoding with replacement of maximal invalid subparts by
U+FFFD — the behaviour of Rust's `String::from_utf8_lossy`. -/
def utf8DecodeLossy (l : List Nat) : List Char := utf8DecodeGo l.length l

/-- UTF-8 encoding of one scalar value. -/
def utf8EncodeChar (c : Char) : List Nat :=
  if c.toNat < 0x80 then [c.toNat]
  else if c.toNat < 0x800 then [0xC0 + c.toNat / 64, 0x80 + c.toNat % 64]
  else if c.toNat < 0x10000 then
    [0xE0 + c.toNat / 4096, 0x80 + (c.toNat / 64) % 64, 0x80 + c.toNat % 64]
  else
    [0xF0 + c.toNat / 262144, 0x80 + (c.toNat / 4096) % 64, 0x80 + (c.toNat / 64) % 64,
      0x80 + c.toNat % 64]

/-- UTF-8 encoding of a character list. -/
def utf8Encode (l : List Char) : List Nat := (l.map utf8EncodeChar).flatten

/-- Rust `char::is_whitespace` (the `White_Space` property). -/
def isRustWhitespace (c : Char) : Bool :=
  c.toNat ∈ [0x09, 0x0A, 0x0B, 0x0C, 0x0D, 0x20, 0x85, 0xA0, 0x1680,
    0x2000, 0x2001, 0x2002, 0x2003, 0x2004, 0x2005, 0x2006, 0x2007, 0x2008, 0x2009,
    0x200A, 0x2028, 0x2029, 0x202F, 0x205F, 0x3000]

/-- Rust `str::trim`: drop whitespace from both ends. -/
def trimChars (l : List Char) : List Char :=
  ((l.dropWhile isRustWhitespace).reverse.dropWhile isRustWhitespace).reverse

/-- The captured outcome of the `migra` subprocess: rendered exit status
plus raw stdout/stderr bytes. -/
structure ProcOutput where
  status : String
  stdout : List Nat
  stderr : List Nat
deriving DecidableEq

def migraFailedHead : String := "migra failed: "
def twoNewlines : String := "\n\n"

/-- Model of the outcome handling of `compute_diff` in the source. -/
def compute_diff (output : ProcOutput) : Except String String :=
  if output.stderr.length ≠ 0 then
    .error (migraFailedHead ++ output.status ++ twoNewlines ++
      String.mk (utf8DecodeLossy output.stderr))
  else
    .ok (String.mk (trimChars (utf8DecodeLossy output.stdout)))

/-- The error text of an `Except`, or `""` on success. -/
def errText : Except String String → String
  | .error e => e
  | .ok _ => ""

/-- Claim C5 (corrected): `compute_diff` fails iff the subprocess's stderr
is non-empty (status is irrelevant to the decision); on failure the
diagnostic contains the rendered exit status and the stderr bytes decoded
lossily as UTF-8 (hence verbatim only when they are valid UTF-8); on
success the result is the stdout bytes lossily decoded and trimmed of
surrounding whitespace. -/
theorem c5_compute_diff (o : ProcOutput) :
    ((∃ e, compute_diff o = .error e) ↔ o.stderr ≠ []) ∧
    (∀ e, compute_diff o = .error e →
      strOccursIn o.status e = true ∧
      strOccursIn (String.mk (utf8DecodeLossy o.stderr)) e = true) ∧
    (o.stderr = [] →
      compute_diff o = .ok (String.mk (trimChars (utf8DecodeLossy o.stdout)))) := by
  refine ⟨⟨?_, ?_⟩, ?_, ?_⟩
  · rintro ⟨e, he⟩ hnil
    rw [compute_diff, if_neg (by simp [hnil])] at he
    cases he
  · intro hne
    rw [compute_diff, if_pos (by simpa using hne)]
    exact ⟨_, rfl⟩
  · intro e he
    by_cases hnil : o.stderr = []
    · rw [compute_diff, if_neg (by simp [hnil])] at he
      cases he
    · rw [compute_diff, if_pos (by simpa using hnil)] at he
      injection he with he
      subst he
      constructor
      · have := strOccursIn_mid migraFailedHead o.status
          (twoNewlines ++ String.mk (utf8DecodeLossy o.stderr))
        rw [strOccursIn] at this ⊢
        simp only [String.data_append, List.append_assoc] at this ⊢
        exact this
      · rw [strOccursIn]
        simp only [String.data_append, List.append_assoc]
        exact occursIn_of_append_right _ (occursIn_of_append_right _
          (occursIn_of_append_right _ (occursIn_self _)))
  · intro hnil
    rw [compute_diff, if_neg (by simp [hnil])]

def c5Out : ProcOutput := ⟨"exit status: 0", [32, 97, 32], []⟩

/-- Witness: `c5_compute_diff` at a concrete successful outcome (stdout
`" a "` trims to `"a"`). -/
theorem c5_compute_diff_witness :
    compute_diff c5Out = .ok (String.mk (trimChars (utf8DecodeLossy c5Out.stdout))) :=
  (c5_compute_diff c5Out).2.2 rfl

def c5Bad : ProcOutput := ⟨"exit status: 1", [], [255]⟩

/-- Counterexample to C5 as stated: for stderr byte `0xFF` (invalid UTF-8),
the diagnostic does not contain the stderr bytes verbatim: `0xFF` never
occurs in the UTF-8 encoding of the diagnostic text. -/
theorem c5_verbatim_cex :
    (∃ e, compute_diff c5Bad = .error e) ∧
    occursIn [255] (utf8Encode (errText (compute_diff c5Bad)).data) = false := by
  refine ⟨⟨errText (compute_diff c5Bad), by decide⟩, by decide⟩

/-! ## Backends, `compute_backend_diff`, `command_diff`, `command_check`

The database/materialisation pipeline behind `compute_backend_diff`
(transient databases, applying SQL files, spawning `migra`) is modelled
by an oracle parameter giving the diff text produced for a pair of
backends; the guard rejecting identical backends is kept from the
source.  `command_diff` prints the diff — the model returns it —
and `command_check` fails on a non-empty diff, both calling the same
`compute_backend_diff`. -/

inductive Backend where
  | Migrations
  | Schema
  | Database
deriving DecidableEq

/-- Debug rendering used by the source's `{:?}`. -/
def backendName : Backend → String
  | .Migrations => "Migrations"
  | .Schema => "Schema"
  | .Database => "Database"

/-- Model of `compute_backend_diff`: same-backend guard, then the
materialise-and-diff pipeline (the oracle). -/
def compute_backend_diff (oracle : Backend → Backend → Except String String)
    (source target : Backend) : Except String String :=
  if source = target then
    .error ("can" ++ apos ++ "t diff " ++ backendName source ++ " against itself")
  else oracle source target

/-- Model of `command_diff`: compute the diff and print it (the model
returns the printed text). -/
def command_diff (oracle : Backend → Backend → Except String String)
    (source target : Backend) : Except String String :=
  compute_backend_diff oracle source target

def diffNotEmptyHead : String := "diff isn" ++ apos ++ "t empty:\n\n"

/-- Model of `command_check`: fail iff the computed diff is non-empty. -/
def command_check (oracle : Backend → Backend → Except String String)
    (source target : Backend) : Except String Unit :=
  match compute_backend_diff oracle source target with
  | .error e => .error e
  | .ok diff => if diff ≠ "" then .error (diffNotEmptyHead ++ diff) else .ok ()

/-- Claim C6: `command_check` succeeds iff the diff computed by the shared
pipeline (`compute_backend_diff`, also returned by `command_diff`) is the
empty string; on a non-empty diff, `command_check` fails with a diagnostic
containing the diff. -/
theorem c6_check_iff_empty_diff (oracle : Backend → Backend → Except String String)
    (source target : Backend) :
    (command_check oracle source target = .ok () ↔
      command_diff oracle source target = .ok ("")) ∧
    (∀ d, command_diff oracle source target = .ok d → d ≠ "" →
      ∃ msg, command_check oracle source target = .error msg ∧
        strOccursIn d msg = true) := by
  constructor
  · rw [command_check, command_diff]
    cases hc : compute_backend_diff oracle source target with
    | error e =>
      show Except.error e = Except.ok () ↔ Except.error e = Except.ok ("")
      constructor
      · intro h; cases h
      · intro h; cases h
    | ok d =>
      show (if d ≠ "" then Except.error (diffNotEmptyHead ++ d) else Except.ok ()) =
          Except.ok () ↔ Except.ok d = Except.ok ("")
      by_cases hd : d = ""
      · subst hd
        rw [if_neg (not_not_intro rfl)]
        exact ⟨fun _ => rfl, fun _ => rfl⟩
      · rw [if_pos hd]
        constructor
        · intro h; cases h
        · intro h
          injection h with h
          exact absurd h hd
  · intro d hd hne
    rw [command_diff] at hd
    rw [command_check, hd]
    refine ⟨diffNotEmptyHead ++ d, ?_, strOccursIn_suffix _ _⟩
    show (if d ≠ "" then Except.error (diffNotEmptyHead ++ d) else Except.ok ()) =
      Except.error (diffNotEmptyHead ++ d)
    rw [if_pos hne]

def c6Oracle : Backend → Backend → Except String String := fun _ _ => .ok ("drop table x;")
def c6Diff : String := "drop table x;"

/-- Witness: `c6_check_iff_empty_diff` at a concrete oracle with a
non-empty diff. -/
theorem c6_check_iff_empty_diff_witness :
    ∃ msg, command_check c6Oracle Backend.Migrations Backend.Schema = .error msg ∧
      strOccursIn c6Diff msg = true :=
  (c6_check_iff_empty_diff c6Oracle Backend.Migrations Backend.Schema).2 c6Diff rfl
    (by decide)

/-! ## `command_generate`

The source: require a `dbname`, gather the validated chain, reject
`--is-onboard` when the chain is non-empty, pick the previous-version
slot, slugify the description, take `now()` as the new version,
materialise Migrations and Schema and diff them (the pipeline, modelled
by an oracle `Except` value), then write the diff to
`./<migrations_directory>/<current>.<previous>.<slug>.sql`.  The model
returns the written path together with the returned version. -/

inductive GenErr where
  | noDbname
  | onboardNonEmpty
  | pipelineFailed (e : String)
deriving DecidableEq

/-- Model of `command_generate`.  `current_version` stands for the
`create_timestamp()` call (clock), `pipeline` for the transient-database
materialisation and diff, and the returned string pair is (written file
path, returned version). -/
def command_generate (dbnameOpt : Option String) (migration_files : List MigrationFile)
    (pipeline : Except String String) (migrations_directory : String)
    (raw_description : String) (is_onboard : Bool) (current_version : String) :
    Except GenErr (String × String) :=
  match dbnameOpt with
  | none => .error .noDbname
  | some _ =>
    if is_onboard ∧ ((migration_files.getLast?).map MigrationFile.current_version).isSome then
      .error .onboardNonEmpty
    else
      match pipeline with
      | .error e => .error (.pipelineFailed e)
      | .ok _ =>
        .ok ("./" ++ migrations_directory ++ "/" ++ current_version ++ "." ++
          (((migration_files.getLast?).map MigrationFile.current_version).getD
            (if is_onboard then onboardStr else get_null_string)) ++ "." ++
          make_slug raw_description ++ ".sql", current_version)

theorem isSome_option_map {α β : Type} (f : α → β) (o : Option α) :
    (o.map f).isSome = o.isSome := by
  cases o <;> rfl

theorem getLast?_isSome_iff {α : Type} (l : List α) :
    (l.getLast?).isSome = true ↔ l ≠ [] := by
  cases hl : l.getLast? with
  | none => simp [List.getLast?_eq_none_iff.mp hl]
  | some a =>
    simp only [Option.isSome_some, true_iff]
    intro h
    subst h
    cases hl

/-- Claim C7: `command_generate` fails when `is_onboard` is set and the
validated chain is non-empty; otherwise the previous-version slot of the
new file is the last chain entry's `current_version` when the chain is
non-empty, else `onboard` when `is_onboard` is set, else the null
sentinel; and the file is written as
`./<migrations_directory>/<current>.<previous>.<slug>.sql`. -/
theorem c7_generate (dbn : String) (migration_files : List MigrationFile)
    (d : String) (dir desc cur : String) :
    (∀ ob, ob = true → migration_files ≠ [] →
      command_generate (some dbn) migration_files (.ok d) dir desc ob cur =
        .error .onboardNonEmpty) ∧
    (∀ ob, ¬ (ob = true ∧ migration_files ≠ []) →
      command_generate (some dbn) migration_files (.ok d) dir desc ob cur =
        .ok ("./" ++ dir ++ "/" ++ cur ++ "." ++
          (match migration_files.getLast? with
           | some mf => mf.current_version
           | none => if ob then onboardStr else get_null_string) ++ "." ++
          make_slug desc ++ ".sql", cur)) := by
  constructor
  · intro ob hob hne
    subst hob
    rw [command_generate]
    rw [if_pos ⟨rfl, by
      rw [isSome_option_map]
      exact (getLast?_isSome_iff migration_files).mpr hne⟩]
  · intro ob hnot
    rw [command_generate]
    rw [if_neg (by
      intro hcon
      apply hnot
      refine ⟨by simpa using hcon.1, ?_⟩
      have := hcon.2
      rw [isSome_option_map] at this
      exact (getLast?_isSome_iff migration_files).mp this)]
    cases hl : migration_files.getLast? with
    | none => simp [hl]
    | some mf => simp [hl]

def c7File : MigrationFile :=
  ⟨"migrations/20200101000000.null.one.sql", "migrations/20200101000000.null.one.sql",
    "20200101000000", "null", false⟩

/-- Witness: `c7_generate` at a concrete non-empty chain: the new file's
previous slot is the last current version. -/
theorem c7_generate_witness :
    command_generate (some ("mydb")) [c7File] (.ok ("")) "migrations" "two things" false
        "20200101000001" =
      .ok ("./migrations/20200101000001.20200101000000.two_things.sql",
        "20200101000001") := by
  have h := (c7_generate ("mydb") [c7File] ("") "migrations" "two things"
    "20200101000001").2 false (by simp)
  rw [h]
  decide

/-! ## The `_schema_versions` model and the applier (`command_migrate`)

The live database is modelled by the facts `command_migrate` depends on:
whether the relation `_schema_versions` exists, and its rows
`(current_version, previous_version)` (`previous_version` is `NULL`
encoded as `none`).  DDL/DML statements issued by the source are
translated: the `CREATE TABLE` of `create_versions_table` fails when the
relation exists (it has no `IF NOT EXISTS`) while its partial unique
index uses `IF NOT EXISTS` and is a no-op here; the bookkeeping `INSERT`
enforces the declared constraints (unique `current_version`, unique
`previous_version`, the partial unique null index, the
`current_version > previous_version` check with SQL NULL semantics, and
the self-referencing foreign key).  Arbitrary migration-file SQL is
abstracted by an oracle `String → Bool` on file paths stating whether
its batch succeeds; its effect on `_schema_versions` is assumed nil
(migrations do not touch the bookkeeping table).  `MAX(current_version)`
over `char(14)` digit strings is lexicographic `max`. -/

/-- Kernel-computable lexicographic comparison on characters (by scalar
value), lists and strings; agrees with the ambient `<` (proved below).
The SQL `MAX` over `char(14)` digit strings and Rust's `String` ordering
are both this lexicographic order. -/
def charLtb (a b : Char) : Bool := decide (a.toNat < b.toNat)

def listCharLtb : List Char → List Char → Bool
  | [], [] => false
  | [], _ :: _ => true
  | _ :: _, [] => false
  | a :: as, b :: bs =>
    if charLtb a b = true then true
    else if charLtb b a = true then false
    else listCharLtb as bs

def strLtb (a b : String) : Bool := listCharLtb a.data b.data

theorem charLtb_iff (a b : Char) : charLtb a b = true ↔ a < b := by
  rw [charLtb, decide_eq_true_eq]
  exact Iff.rfl

theorem listCharLtb_iff : ∀ l₁ l₂ : List Char, listCharLtb l₁ l₂ = true ↔ List.Lex (· < ·) l₁ l₂
  | [], [] => by
    rw [listCharLtb]
    constructor
    · intro h; cases h
    · intro h; cases h
  | [], b :: bs => by
    rw [listCharLtb]
    exact ⟨fun _ => List.Lex.nil, fun _ => rfl⟩
  | a :: as, [] => by
    rw [listCharLtb]
    constructor
    · intro h; cases h
    · intro h; cases h
  | a :: as, b :: bs => by
    rw [listCharLtb]
    by_cases hab : a < b
    · rw [if_pos ((charLtb_iff a b).mpr hab)]
      exact ⟨fun _ => List.Lex.rel hab, fun _ => rfl⟩
    · rw [if_neg (fun h => hab ((charLtb_iff a b).mp h))]
      by_cases hba : b < a
      · rw [if_pos ((charLtb_iff b a).mpr hba)]
        constructor
        · intro h; cases h
        · intro h
          cases h with
          | rel h' => exact absurd h' hab
          | cons h' => exact absurd hba (lt_irrefl a)
      · rw [if_neg (fun h => hba ((charLtb_iff b a).mp h))]
        have heq : a = b := le_antisymm (le_of_not_lt hba) (le_of_not_lt hab)
        subst heq
        rw [listCharLtb_iff as bs]
        constructor
        · intro h; exact List.Lex.cons h
        · intro h
          cases h with
          | rel h' => exact absurd h' hab
          | cons h' => exact h'

theorem strLtb_iff (a b : String) : strLtb a b = true ↔ a < b := by
  rw [String.lt_iff_toList_lt]
  exact listCharLtb_iff a.data b.data

structure DbState where
  hasVersionsTable : Bool
  rows : List (String × Option String)
deriving DecidableEq

inductive SqlErr where
  | relationExists
  | relationMissing
  | uniqueCurrent
  | uniquePrevious
  | uniqueNullPrevious
  | checkViolation
  | fkViolation
deriving DecidableEq

/-- Model of `create_versions_table`: `create table _schema_versions (...)`
(no `IF NOT EXISTS` — fails when the relation already exists) followed by
`create unique index if not exists ...` (idempotent, no-op in this model);
a freshly created table is empty. -/
def create_versions_table (s : DbState) : Except SqlErr DbState :=
  if s.hasVersionsTable then .error .relationExists
  else .ok ⟨true, []⟩

/-- Model of the bookkeeping insert
`insert into _schema_versions (current_version, previous_version) values (...)`
with the table's constraints. -/
def insert_schema_version (cur : String) (prev : Option String) (s : DbState) :
    Except SqlErr DbState :=
  if ¬ s.hasVersionsTable = true then .error .relationMissing
  else if cur ∈ s.rows.map Prod.fst then .error .uniqueCurrent
  else if (match prev with
           | some p => decide (p ∈ s.rows.filterMap Prod.snd)
           | none => false) = true then .error .uniquePrevious
  else if (match prev with
           | none => s.rows.any (fun r => r.2.isNone)
           | some _ => false) = true then .error .uniqueNullPrevious
  else if (match prev with
           | some p => !(strLtb p cur)
           | none => false) = true then .error .checkViolation
  else if (match prev with
           | some p => decide (¬ p ∈ s.rows.map Prod.fst)
           | none => false) = true then .error .fkViolation
  else .ok ⟨s.hasVersionsTable, s.rows ++ [(cur, prev)]⟩

/-- `select max(current_version) from _schema_versions`: `none` on an
empty table. -/
def maxVersion : List (String × Option String) → Option String
  | [] => none
  | r :: rest =>
    some (match maxVersion rest with
          | none => r.1
          | some m => if strLtb m r.1 = true then r.1 else m)

/-- The SQL value interpolated as `previous_version` in the insert:
the literal `null` sentinel becomes SQL `NULL`. -/
def prevValOf (mf : MigrationFile) : Option String :=
  if mf.previous_version = get_null_string then none else some mf.previous_version

inductive MigErr where
  | onboardNotFirst (p : String) (idx : Nat)
  | sql (e : SqlErr)
  | migrationFailed (p : String)
deriving DecidableEq

inductive MigAction where
  | createdVersionsTable
  | executedMigration (p : String)
  | insertedRow (cur : String) (prev : Option String)
deriving DecidableEq

structure MigOutcome where
  result : Except MigErr Unit
  db : DbState
  actions : List MigAction
deriving DecidableEq

/-- The transaction inside the source's `perform_migration` closure:
execute the migration SQL (when
`!is_onboard || actually_perform_onboard_migrations`) and insert the
bookkeeping row; a failure rolls back to the state at the transaction
start.  `acts0` carries the action recorded by the table creation that
preceded the transaction. -/
def migrateTxn (oracle : String → Bool) (perform_onboard : Bool)
    (acts0 : List MigAction) (mf : MigrationFile) (s1 : DbState) : MigOutcome :=
  if (mf.is_onboard = false ∨ perform_onboard = true) ∧ oracle mf.file_path = false then
    ⟨.error (.migrationFailed mf.file_path), s1,
      acts0 ++ [MigAction.executedMigration mf.file_path]⟩
  else
    match insert_schema_version mf.current_version (prevValOf mf) s1 with
    | .error e =>
      ⟨.error (.sql e), s1,
        acts0 ++ (if mf.is_onboard = false ∨ perform_onboard = true then
          [MigAction.executedMigration mf.file_path] else [])⟩
    | .ok s2 =>
      ⟨.ok (), s2,
        acts0 ++ (if mf.is_onboard = false ∨ perform_onboard = true then
          [MigAction.executedMigration mf.file_path] else []) ++
          [MigAction.insertedRow mf.current_version (prevValOf mf)]⟩

/-- The body of the source's `perform_migration` closure (for a pending
migration, not a dry run): create the `_schema_versions` table when at
index 0, then run the transaction. -/
def migrateStep (oracle : String → Bool) (perform_onboard : Bool) (idx : Nat)
    (mf : MigrationFile) (s : DbState) : MigOutcome :=
  match (if idx = 0 then create_versions_table s else .ok s) with
  | .error e => ⟨.error (.sql e), s, []⟩
  | .ok s1 =>
    migrateTxn oracle perform_onboard
      (if idx = 0 then [MigAction.createdVersionsTable] else []) mf s1

/-- The pending decision: with no recorded version every migration is
pending, otherwise a migration is pending iff its `current_version`
exceeds the recorded maximum (lexicographically). -/
def pendingCheck (actual : Option String) (cur : String) : Bool :=
  match actual with
  | none => true
  | some v => strLtb v cur

/-- The per-migration loop of `command_migrate`: the onboard-position
check, the pending decision against `actual_version`, and (unless a dry
run) the `perform_migration` step; a step error stops the iteration. -/
def migrateLoop (oracle : String → Bool) (perform_onboard dry_run : Bool)
    (actual : Option String) (idx : Nat) : List MigrationFile → DbState → MigOutcome
  | [], s => ⟨.ok (), s, []⟩
  | mf :: rest, s =>
    if idx ≠ 0 ∧ mf.is_onboard = true then
      ⟨.error (.onboardNotFirst mf.display_file_path idx), s, []⟩
    else
      if pendingCheck actual mf.current_version = true then
        if dry_run then migrateLoop oracle perform_onboard dry_run actual (idx + 1) rest s
        else
          match (migrateStep oracle perform_onboard idx mf s).result with
          | .error e =>
            ⟨.error e, (migrateStep oracle perform_onboard idx mf s).db,
              (migrateStep oracle perform_onboard idx mf s).actions⟩
          | .ok _ =>
            ⟨(migrateLoop oracle perform_onboard dry_run actual (idx + 1) rest
                (migrateStep oracle perform_onboard idx mf s).db).result,
              (migrateLoop oracle perform_onboard dry_run actual (idx + 1) rest
                (migrateStep oracle perform_onboard idx mf s).db).db,
              (migrateStep oracle perform_onboard idx mf s).actions ++
                (migrateLoop oracle perform_onboard dry_run actual (idx + 1) rest
                  (migrateStep oracle perform_onboard idx mf s).db).actions⟩
      else migrateLoop oracle perform_onboard dry_run actual (idx + 1) rest s

/-- Model of `command_migrate` on an already-validated chain: compute
`actual_version` with the temporary probing function (`NULL` when the
table is missing, `MAX(current_version)` otherwise — itself `NULL` on an
empty table), then run the loop. -/
def command_migrate (oracle : String → Bool) (perform_onboard dry_run : Bool)
    (migration_files : List MigrationFile) (s : DbState) : MigOutcome :=
  migrateLoop oracle perform_onboard dry_run
    (if s.hasVersionsTable then maxVersion s.rows else none) 0 migration_files s

/-- Claim C2 (corrected): `create_versions_table` is not idempotent on the
table half: its `CREATE TABLE` carries no `IF NOT EXISTS`, so the call
fails whenever `_schema_versions` already exists in the live database; it
succeeds exactly when the table is absent (only the partial unique index
uses `IF NOT EXISTS`). -/
theorem c2_create_versions_table (s : DbState) :
    (s.hasVersionsTable = true → create_versions_table s = .error SqlErr.relationExists) ∧
    (s.hasVersionsTable = false → create_versions_table s = .ok ⟨true, []⟩) := by
  constructor
  · intro h
    rw [create_versions_table, if_pos h]
  · intro h
    rw [create_versions_table, if_neg (by rw [h]; exact Bool.false_ne_true)]

def c2Db : DbState := ⟨true, [("20200101000000", none)]⟩

/-- Counterexample to C2 as stated: on a live database where
`_schema_versions` already exists, `create_versions_table` fails instead
of succeeding idempotently. -/
theorem c2_idempotent_cex :
    create_versions_table c2Db = .error SqlErr.relationExists := by decide

def c2Fresh : DbState := ⟨false, []⟩

/-- Witness: `c2_create_versions_table` on a fresh database. -/
theorem c2_create_versions_table_witness :
    create_versions_table c2Fresh = .ok ⟨true, []⟩ :=
  (c2_create_versions_table c2Fresh).2 rfl

/-- Claim C10: in `command_migrate` the `_schema_versions` creation for the
first pending migration happens outside the per-migration transaction: on
a fresh database (no `_schema_versions`), when the first migration's SQL
batch fails, the run fails and the transaction rolls back the migration
and its bookkeeping row, yet the newly created empty `_schema_versions`
table persists — the database is not fully unchanged on error. -/
theorem c10_create_outside_transaction (oracle : String → Bool) (po : Bool)
    (mf : MigrationFile) (rest : List MigrationFile) (s : DbState)
    (htab : s.hasVersionsTable = false)
    (hsql : (mf.is_onboard = false ∨ po = true) ∧ oracle mf.file_path = false) :
    command_migrate oracle po false (mf :: rest) s =
      ⟨.error (.migrationFailed mf.file_path), ⟨true, []⟩,
        [MigAction.createdVersionsTable, MigAction.executedMigration mf.file_path]⟩ := by
  have hstep : migrateStep oracle po 0 mf s =
      ⟨.error (.migrationFailed mf.file_path), ⟨true, []⟩,
        [MigAction.createdVersionsTable, MigAction.executedMigration mf.file_path]⟩ := by
    rw [migrateStep, if_pos rfl, create_versions_table,
      if_neg (by rw [htab]; exact Bool.false_ne_true)]
    show migrateTxn oracle po
        (if (0 : Nat) = 0 then [MigAction.createdVersionsTable] else []) mf ⟨true, []⟩ = _
    rw [migrateTxn, if_pos hsql, if_pos rfl]
    rfl
  rw [command_migrate, if_neg (by rw [htab]; exact Bool.false_ne_true)]
  rw [migrateLoop]
  rw [if_neg (fun h => absurd rfl h.1)]
  rw [if_pos (show pendingCheck none mf.current_version = true from rfl)]
  rw [if_neg Bool.false_ne_true]
  rw [hstep]

def c10File : MigrationFile :=
  ⟨"migrations/20200101000000.null.one.sql", "migrations/20200101000000.null.one.sql",
    "20200101000000", "null", false⟩

/-- Witness: `c10_create_outside_transaction` with a concrete failing
migration on a fresh database. -/
theorem c10_create_outside_transaction_witness :
    command_migrate (fun _ => false) false false [c10File] ⟨false, []⟩ =
      ⟨.error (.migrationFailed c10File.file_path), ⟨true, []⟩,
        [MigAction.createdVersionsTable, MigAction.executedMigration c10File.file_path]⟩ :=
  c10_create_outside_transaction (fun _ => false) false c10File [] ⟨false, []⟩ rfl
    ⟨Or.inl rfl, rfl⟩

theorem maxVersion_eq_none : ∀ l, maxVersion l = none → l = []
  | [], _ => rfl
  | _ :: _, h => by rw [maxVersion] at h; cases h

theorem maxVersion_mem : ∀ (l : List (String × Option String)) m,
    maxVersion l = some m → ∃ p, (m, p) ∈ l
  | [], m, h => by cases h
  | r :: rest, m, h => by
    rw [maxVersion] at h
    injection h with h
    cases heq : maxVersion rest with
    | none =>
      rw [heq] at h
      exact ⟨r.2, by rw [← h]; exact List.mem_cons_self _ _⟩
    | some m' =>
      rw [heq] at h
      replace h : (if strLtb m' r.1 = true then r.1 else m') = m := h
      by_cases hlt : strLtb m' r.1 = true
      · rw [if_pos hlt] at h
        exact ⟨r.2, by rw [← h]; exact List.mem_cons_self _ _⟩
      · rw [if_neg hlt] at h
        obtain ⟨p, hp⟩ := maxVersion_mem rest m' heq
        exact ⟨p, by rw [← h]; exact List.mem_cons_of_mem _ hp⟩

theorem mem_le_maxVersion : ∀ (l : List (String × Option String)) c p,
    (c, p) ∈ l → ∃ m, maxVersion l = some m ∧ c ≤ m
  | [], c, p, h => absurd h (List.not_mem_nil _)
  | r :: rest, c, p, h => by
    rw [maxVersion]
    cases heq : maxVersion rest with
    | none =>
      have hrest : rest = [] := maxVersion_eq_none rest heq
      subst hrest
      rcases List.mem_cons.mp h with hh | ht
      · exact ⟨r.1, rfl, le_of_eq (congrArg Prod.fst hh)⟩
      · exact absurd ht (List.not_mem_nil _)
    | some m' =>
      show ∃ m, some (if strLtb m' r.1 = true then r.1 else m') = some m ∧ c ≤ m
      rcases List.mem_cons.mp h with hh | ht
      · by_cases hlt : strLtb m' r.1 = true
        · rw [if_pos hlt]
          exact ⟨r.1, rfl, le_of_eq (congrArg Prod.fst hh)⟩
        · rw [if_neg hlt]
          have hle : r.1 ≤ m' := le_of_not_lt (fun hc => hlt ((strLtb_iff m' r.1).mpr hc))
          exact ⟨m', rfl, le_trans (le_of_eq (congrArg Prod.fst hh)) hle⟩
      · obtain ⟨m'', hm'', hcle⟩ := mem_le_maxVersion rest c p ht
        rw [heq, Option.some.injEq] at hm''
        subst hm''
        by_cases hlt : strLtb m' r.1 = true
        · rw [if_pos hlt]
          exact ⟨r.1, rfl, le_trans hcle (le_of_lt ((strLtb_iff m' r.1).mp hlt))⟩
        · rw [if_neg hlt]
          exact ⟨m', rfl, hcle⟩

theorem insert_ok_shape {cur : String} {prev : Option String} {s s2 : DbState}
    (h : insert_schema_version cur prev s = .ok s2) :
    s.hasVersionsTable = true ∧ s2.hasVersionsTable = s.hasVersionsTable ∧
    s2.rows = s.rows ++ [(cur, prev)] := by
  unfold insert_schema_version at h
  split at h
  · cases h
  rename_i hmiss
  split at h
  · cases h
  split at h
  · cases h
  split at h
  · cases h
  split at h
  · cases h
  split at h
  · cases h
  injection h with h
  subst h
  exact ⟨not_not.mp hmiss, rfl, rfl⟩

theorem migrateTxn_ok (oracle : String → Bool) (po : Bool) (acts0 : List MigAction)
    (mf : MigrationFile) (s1 : DbState)
    (hok : (migrateTxn oracle po acts0 mf s1).result = .ok ()) :
    (migrateTxn oracle po acts0 mf s1).db.hasVersionsTable = true ∧
    s1.hasVersionsTable = true ∧
    (migrateTxn oracle po acts0 mf s1).db.rows =
      s1.rows ++ [(mf.current_version, prevValOf mf)] := by
  rw [migrateTxn] at hok ⊢
  by_cases hfail : (mf.is_onboard = false ∨ po = true) ∧ oracle mf.file_path = false
  · rw [if_pos hfail] at hok
    exact absurd hok (fun h => Except.noConfusion h)
  · rw [if_neg hfail] at hok ⊢
    cases hins : insert_schema_version mf.current_version (prevValOf mf) s1 with
    | error e =>
      rw [hins] at hok
      exact absurd hok (fun h => Except.noConfusion h)
    | ok s2 =>
      rw [hins] at hok
      obtain ⟨h1, h2, h3⟩ := insert_ok_shape hins
      refine ⟨?_, h1, ?_⟩
      · show s2.hasVersionsTable = true
        rw [h2, h1]
      · show s2.rows = s1.rows ++ [(mf.current_version, prevValOf mf)]
        exact h3

theorem migrateStep_ok (oracle : String → Bool) (po : Bool) (idx : Nat)
    (mf : MigrationFile) (s : DbState)
    (hok : (migrateStep oracle po idx mf s).result = .ok ()) :
    (migrateStep oracle po idx mf s).db.hasVersionsTable = true ∧
    (migrateStep oracle po idx mf s).db.rows =
      (if idx = 0 then [] else s.rows) ++ [(mf.current_version, prevValOf mf)] ∧
    (idx = 0 → s.hasVersionsTable = false) ∧
    (idx ≠ 0 → s.hasVersionsTable = true) := by
  rw [migrateStep] at hok ⊢
  by_cases hidx : idx = 0
  · rw [if_pos hidx] at hok ⊢
    cases hcr : create_versions_table s with
    | error e =>
      rw [hcr] at hok
      exact absurd hok (fun h => Except.noConfusion h)
    | ok s1 =>
      rw [hcr] at hok
      have hfresh : s.hasVersionsTable = false ∧ s1 = ⟨true, []⟩ := by
        rw [create_versions_table] at hcr
        by_cases htab : s.hasVersionsTable = true
        · rw [if_pos htab] at hcr; cases hcr
        · rw [if_neg htab] at hcr
          injection hcr with hcr
          exact ⟨Bool.eq_false_iff.mpr (fun hc => htab hc), hcr.symm⟩
      replace hok :
          (migrateTxn oracle po
            (if idx = 0 then [MigAction.createdVersionsTable] else []) mf s1).result =
            .ok () := hok
      obtain ⟨h1, _, h3⟩ := migrateTxn_ok oracle po _ mf s1 hok
      refine ⟨h1, ?_, fun _ => hfresh.1, fun h => absurd hidx h⟩
      show (migrateTxn oracle po
          (if idx = 0 then [MigAction.createdVersionsTable] else []) mf s1).db.rows = _
      rw [h3, hfresh.2, if_pos hidx]
  · rw [if_neg hidx] at hok ⊢
    replace hok :
        (migrateTxn oracle po
          (if idx = 0 then [MigAction.createdVersionsTable] else []) mf s).result =
          .ok () := hok
    obtain ⟨h1, h2, h3⟩ := migrateTxn_ok oracle po _ mf s hok
    refine ⟨h1, ?_, fun h => absurd h hidx, fun _ => h2⟩
    show (migrateTxn oracle po
        (if idx = 0 then [MigAction.createdVersionsTable] else []) mf s).db.rows = _
    rw [h3, if_neg hidx]

theorem migrateLoop_cons (oracle : String → Bool) (po dry : Bool)
    (actual : Option String) (idx : Nat) (mf : MigrationFile)
    (rest : List MigrationFile) (s : DbState) :
    migrateLoop oracle po dry actual idx (mf :: rest) s =
      (if idx ≠ 0 ∧ mf.is_onboard = true then
        ⟨.error (.onboardNotFirst mf.display_file_path idx), s, []⟩
      else
        if pendingCheck actual mf.current_version = true then
          if dry = true then migrateLoop oracle po dry actual (idx + 1) rest s
          else
            match (migrateStep oracle po idx mf s).result with
            | .error e =>
              ⟨.error e, (migrateStep oracle po idx mf s).db,
                (migrateStep oracle po idx mf s).actions⟩
            | .ok _ =>
              ⟨(migrateLoop oracle po dry actual (idx + 1) rest
                  (migrateStep oracle po idx mf s).db).result,
                (migrateLoop oracle po dry actual (idx + 1) rest
                  (migrateStep oracle po idx mf s).db).db,
                (migrateStep oracle po idx mf s).actions ++
                  (migrateLoop oracle po dry actual (idx + 1) rest
                    (migrateStep oracle po idx mf s).db).actions⟩
        else migrateLoop oracle po dry actual (idx + 1) rest s) := by
  rw [migrateLoop.eq_def]

theorem migrateLoop_ok (oracle : String → Bool) (po : Bool) (actual : Option String) :
    ∀ (fs : List MigrationFile) (idx : Nat) (s : DbState) (out : MigOutcome),
    migrateLoop oracle po false actual idx fs s = out →
    (s.hasVersionsTable = false → s.rows = []) →
    out.result = .ok () →
    (s.hasVersionsTable = true → out.db.hasVersionsTable = true) ∧
    (∃ ins, out.db.rows = s.rows ++ ins) ∧
    (out.db.hasVersionsTable = false → out.db.rows = []) ∧
    (∀ mf ∈ fs, (∃ v, actual = some v ∧ strLtb v mf.current_version = false) ∨
      ((mf.current_version, prevValOf mf) ∈ out.db.rows ∧
        out.db.hasVersionsTable = true)) := by
  intro fs
  induction fs with
  | nil =>
    intro idx s out hout hwf hok
    rw [migrateLoop] at hout
    subst hout
    exact ⟨fun h => h, ⟨[], (List.append_nil s.rows).symm⟩, hwf,
      fun mf hmf => absurd hmf (List.not_mem_nil _)⟩
  | cons mf rest ih =>
    intro idx s out hout hwf hok
    rw [migrateLoop_cons] at hout
    by_cases honb : idx ≠ 0 ∧ mf.is_onboard = true
    · rw [if_pos honb] at hout
      rw [← hout] at hok
      exact absurd hok (fun h => Except.noConfusion h)
    · rw [if_neg honb] at hout
      by_cases hpend : pendingCheck actual mf.current_version = true
      · rw [if_pos hpend] at hout
        rw [if_neg Bool.false_ne_true] at hout
        cases hres : (migrateStep oracle po idx mf s).result with
        | error e =>
          rw [hres] at hout
          rw [← hout] at hok
          exact absurd hok (fun h => Except.noConfusion h)
        | ok u =>
          cases u
          rw [hres] at hout
          obtain ⟨h1, h2, h30, h3n⟩ := migrateStep_ok oracle po idx mf s hres
          obtain ⟨ihmono, ⟨ins, ihins⟩, ihwf, ihfile⟩ :=
            ih (idx + 1) (migrateStep oracle po idx mf s).db _ rfl
              (fun hfalse => absurd h1 (by rw [hfalse]; exact Bool.false_ne_true))
              (by rw [← hout] at hok; exact hok)
          subst hout
          refine ⟨fun _ => ihmono h1, ?_, ihwf, ?_⟩
          · by_cases hidx : idx = 0
            · have hs : s.rows = [] := hwf (h30 hidx)
              refine ⟨(mf.current_version, prevValOf mf) :: ins, ?_⟩
              show (migrateLoop oracle po false actual (idx + 1) rest
                  (migrateStep oracle po idx mf s).db).db.rows = _
              rw [ihins, h2, if_pos hidx, hs]
              simp
            · refine ⟨(mf.current_version, prevValOf mf) :: ins, ?_⟩
              show (migrateLoop oracle po false actual (idx + 1) rest
                  (migrateStep oracle po idx mf s).db).db.rows = _
              rw [ihins, h2, if_neg hidx]
              simp
          · intro x hx
            rcases List.mem_cons.mp hx with rfl | hx
            · refine Or.inr ⟨?_, ihmono h1⟩
              show (x.current_version, prevValOf x) ∈
                (migrateLoop oracle po false actual (idx + 1) rest
                  (migrateStep oracle po idx x s).db).db.rows
              rw [ihins, h2]
              simp
            · exact ihfile x hx
      · rw [if_neg hpend] at hout
        obtain ⟨ihmono, ihins, ihwf, ihfile⟩ := ih (idx + 1) s out hout hwf hok
        refine ⟨ihmono, ihins, ihwf, ?_⟩
        intro x hx
        rcases List.mem_cons.mp hx with rfl | hx
        · left
          cases actual with
          | none => exact absurd rfl hpend
          | some v => exact ⟨v, rfl, Bool.eq_false_iff.mpr (fun h => hpend h)⟩
        · exact ihfile x hx

theorem migrateLoop_nopending (oracle : String → Bool) (po dry : Bool)
    (actual : Option String) :
    ∀ (fs : List MigrationFile) (idx : Nat) (s : DbState),
    (∀ mf ∈ fs, ∃ v, actual = some v ∧ strLtb v mf.current_version = false) →
    (idx ≠ 0 → ∀ mf ∈ fs, mf.is_onboard = false) →
    (∀ mf ∈ fs.tail, mf.is_onboard = false) →
    migrateLoop oracle po dry actual idx fs s = ⟨.ok (), s, []⟩ := by
  intro fs
  induction fs with
  | nil =>
    intro idx s _ _ _
    rw [migrateLoop]
  | cons mf rest ih =>
    intro idx s h1 h2 h3
    rw [migrateLoop_cons]
    rw [if_neg (fun hcon => by
      have := h2 hcon.1 mf (List.mem_cons_self _ _)
      rw [this] at hcon
      exact Bool.false_ne_true hcon.2)]
    obtain ⟨v, hv, hfalse⟩ := h1 mf (List.mem_cons_self _ _)
    rw [if_neg (fun hmatch => by
      rw [hv] at hmatch
      replace hmatch : strLtb v mf.current_version = true := hmatch
      rw [hfalse] at hmatch
      exact Bool.false_ne_true hmatch)]
    exact ih (idx + 1) s
      (fun x hx => h1 x (List.mem_cons_of_mem _ hx))
      (fun _ => h3)
      (fun x hx => h3 x (List.mem_of_mem_tail hx))

theorem actual_some_facts {s : DbState} {v : String}
    (h : (if s.hasVersionsTable = true then maxVersion s.rows else none) = some v) :
    s.hasVersionsTable = true ∧ maxVersion s.rows = some v := by
  by_cases hst : s.hasVersionsTable = true
  · rw [if_pos hst] at h; exact ⟨hst, h⟩
  · rw [if_neg hst] at h; cases h

/-- Claim C3 (corrected): for every valid migration chain and every
database state on which a first `apply` run (`command_migrate` with
`dry_run = false`) succeeds, the second run in succession succeeds,
decides every migration as not pending, performs no non-trivial actions
(so at most as many as the first, strictly fewer only when the first
performed any), and leaves the set of rows in `_schema_versions`
unchanged; after the first run the recorded maximum version is at least
every chain version (it need not equal the last chain version). -/
theorem c3_apply_idempotent (paths : List String) (files : List MigrationFile)
    (oracle : String → Bool) (po : Bool) (s : DbState)
    (hparse : vec_from_paths paths = .ok files)
    (hwf : s.hasVersionsTable = false → s.rows = [])
    (hok : (command_migrate oracle po false files s).result = .ok ()) :
    command_migrate oracle po false files
        ((command_migrate oracle po false files s).db) =
      ⟨.ok (), (command_migrate oracle po false files s).db, []⟩ ∧
    (files ≠ [] → ∃ v,
      maxVersion (command_migrate oracle po false files s).db.rows = some v ∧
      ∀ mf ∈ files, mf.current_version ≤ v) := by
  have htail : ∀ mf ∈ files.tail, mf.is_onboard = false :=
    (vecAux_ok_facts paths 0 get_null_string files hparse).2.2.1
  obtain ⟨mono, ⟨ins, hins⟩, wfout, perfile⟩ :=
    migrateLoop_ok oracle po
      (if s.hasVersionsTable = true then maxVersion s.rows else none)
      files 0 s (command_migrate oracle po false files s) rfl hwf hok
  cases files with
  | nil =>
    constructor
    · rw [command_migrate, migrateLoop]
    · intro h; exact absurd rfl h
  | cons mf0 rest0 =>
    have htab1 : (command_migrate oracle po false (mf0 :: rest0) s).db.hasVersionsTable =
        true := by
      rcases perfile mf0 (List.mem_cons_self _ _) with ⟨v, hv, _⟩ | ⟨_, h⟩
      · exact mono (actual_some_facts hv).1
      · exact h
    have hrows1 : (command_migrate oracle po false (mf0 :: rest0) s).db.rows ≠ [] := by
      rcases perfile mf0 (List.mem_cons_self _ _) with ⟨v, hv, _⟩ | ⟨hmem, _⟩
      · obtain ⟨hst, hmax⟩ := actual_some_facts hv
        intro hnil
        rw [hins] at hnil
        rcases List.append_eq_nil.mp hnil with ⟨hl, _⟩
        rw [hl] at hmax
        cases hmax
      · intro hnil
        rw [hnil] at hmem
        exact List.not_mem_nil _ hmem
    obtain ⟨m, hmax1⟩ : ∃ m,
        maxVersion (command_migrate oracle po false (mf0 :: rest0) s).db.rows = some m := by
      cases hm : maxVersion (command_migrate oracle po false (mf0 :: rest0) s).db.rows with
      | none => exact absurd (maxVersion_eq_none _ hm) hrows1
      | some m => exact ⟨m, rfl⟩
    have hbound : ∀ mf ∈ mf0 :: rest0, mf.current_version ≤ m := by
      intro mf hmf
      rcases perfile mf hmf with ⟨v, hv, hfalse⟩ | ⟨hmem, _⟩
      · obtain ⟨hst, hmaxs⟩ := actual_some_facts hv
        have hcv : mf.current_version ≤ v :=
          le_of_not_lt (fun hc => Bool.false_ne_true
            (hfalse ▸ (strLtb_iff v mf.current_version).mpr hc))
        obtain ⟨p, hp⟩ := maxVersion_mem s.rows v hmaxs
        have hpmem : (v, p) ∈ (command_migrate oracle po false (mf0 :: rest0) s).db.rows := by
          rw [hins]
          exact List.mem_append_left _ hp
        obtain ⟨m', hm', hvm⟩ := mem_le_maxVersion _ v p hpmem
        rw [hmax1, Option.some.injEq] at hm'
        subst hm'
        exact le_trans hcv hvm
      · obtain ⟨m', hm', hvm⟩ := mem_le_maxVersion _ _ _ hmem
        rw [hmax1, Option.some.injEq] at hm'
        subst hm'
        exact hvm
    constructor
    · rw [command_migrate, if_pos htab1, hmax1]
      exact migrateLoop_nopending oracle po false (some m) (mf0 :: rest0) 0
        (command_migrate oracle po false (mf0 :: rest0) s).db
        (fun mf hmf => ⟨m, rfl, Bool.eq_false_iff.mpr
          (fun h => absurd ((strLtb_iff m mf.current_version).mp h)
            (not_lt_of_le (hbound mf hmf)))⟩)
        (fun h => absurd rfl h)
        htail
    · intro _
      exact ⟨m, hmax1, hbound⟩

def c3Oracle : String → Bool := fun _ => true
def c3Paths : List String := ["m/20200101000000.null.one.sql"]
def c3File : MigrationFile :=
  ⟨"m/20200101000000.null.one.sql", "m/20200101000000.null.one.sql",
    "20200101000000", "null", false⟩
def c3Files : List MigrationFile := [c3File]
def c3Db : DbState := ⟨false, []⟩

/-- Witness: `c3_apply_idempotent` on a fresh database with a one-file
chain: the second run is a no-op. -/
theorem c3_apply_idempotent_witness :
    command_migrate c3Oracle false false c3Files
        ((command_migrate c3Oracle false false c3Files c3Db).db) =
      ⟨.ok (), (command_migrate c3Oracle false false c3Files c3Db).db, []⟩ :=
  (c3_apply_idempotent c3Paths c3Files c3Oracle false c3Db (by decide)
    (fun _ => rfl) (by decide)).1

def c3CexDb : DbState := ⟨true, [("20200101000000", none)]⟩

/-- Counterexample to C3 as stated: on an up-to-date database both runs
perform zero non-trivial actions, so the second run does not perform
strictly fewer actions than the first. -/
theorem c3_strictly_fewer_cex :
    vec_from_paths c3Paths = .ok c3Files ∧
    (command_migrate c3Oracle false false c3Files c3CexDb).result = .ok () ∧
    ¬ ((command_migrate c3Oracle false false c3Files
          ((command_migrate c3Oracle false false c3Files c3CexDb).db)).actions.length <
        (command_migrate c3Oracle false false c3Files c3CexDb).actions.length) := by
  refine ⟨by decide, by decide, by decide⟩
